import Mathlib

/-!
Verification of the caching / resilient-invocation layer of the
gemini-handwriting-grader repository, shallowly embedded in Lean 4.

The embedded source functions (Python) are:
  * `grading_utils.get_cache_key`, `grading_utils.get_from_cache`
  * `agents/common.run_agent_with_retry`
  * `agents/grading_agent.grade_answer_with_ai`,
    `agents/grading_agent.grade_answer_with_ocr_and_ai`
  * `agents/marking_scheme_agent.extract_marking_scheme_with_ai`
  * `agents/annotation_agent.extract_annotations_with_ai`
  * `agents/moderation_agent.moderate_grades_with_ai`
  * the cache-hit artifact checks of
    `agents/analytics_agent.generate_class_overview_with_ai` and
    `agents/analytics_agent.generate_question_insights_with_ai`

Python `float` marks are modelled by `ℚ`; machine 32-bit words inside the
hash are `Nat` taken modulo `2 ^ 32`; fallible operations return `Option`
or `Except`.  The opaque remote model call is abstracted as an oracle
`Nat → AttemptOutcome α` giving, for each 0-based attempt index, either a
raised exception, a missing/invalid structured output, or a structured
value.
-/

namespace Grader

/-! ## SHA-256 (model of Python `hashlib.sha256(...).hexdigest()`)

A byte-level implementation over `Nat`, with all word arithmetic reduced
modulo `2 ^ 32 = 4294967296`.  The digest is rendered as 64 lowercase hex
characters. -/

def w32 : Nat := 4294967296

def add32 (a b : Nat) : Nat := (a + b) % w32

def rotr32 (x n : Nat) : Nat := ((x >>> n) ||| (x <<< (32 - n))) % w32

def not32 (x : Nat) : Nat := 4294967295 - x % w32

def bigSig0 (x : Nat) : Nat := (rotr32 x 2) ^^^ (rotr32 x 13) ^^^ (rotr32 x 22)

def bigSig1 (x : Nat) : Nat := (rotr32 x 6) ^^^ (rotr32 x 11) ^^^ (rotr32 x 25)

def smallSig0 (x : Nat) : Nat := (rotr32 x 7) ^^^ (rotr32 x 18) ^^^ (x >>> 3)

def smallSig1 (x : Nat) : Nat := (rotr32 x 17) ^^^ (rotr32 x 19) ^^^ (x >>> 10)

def chF (x y z : Nat) : Nat := (x &&& y) ^^^ (not32 x &&& z)

def majF (x y z : Nat) : Nat := (x &&& y) ^^^ (x &&& z) ^^^ (y &&& z)

/-- The 64 SHA-256 round constants (decimal). -/
def sha256K : List Nat :=
  [1116352408, 1899447441, 3049323471, 3921009573, 961987163,
   1508970993, 2453635748, 2870763221, 3624381080, 310598401,
   607225278, 1426881987, 1925078388, 2162078206, 2614888103,
   3248222580, 3835390401, 4022224774, 264347078, 604807628,
   770255983, 1249150122, 1555081692, 1996064986, 2554220882,
   2821834349, 2952996808, 3210313671, 3336571891, 3584528711,
   113926993, 338241895, 666307205, 773529912, 1294757372,
   1396182291, 1695183700, 1986661051, 2177026350, 2456956037,
   2730485921, 2820302411, 3259730800, 3345764771, 3516065817,
   3600352804, 4094571909, 275423344, 430227734, 506948616,
   659060556, 883997877, 958139571, 1322822218, 1537002063,
   1747873779, 1955562222, 2024104815, 2227730452, 2361852424,
   2428436474, 2756734187, 3204031479, 3329325298]

/-- The running 8-word hash state. -/
structure Sha256State where
  a : Nat
  b : Nat
  c : Nat
  d : Nat
  e : Nat
  f : Nat
  g : Nat
  h : Nat
deriving DecidableEq

def sha256Init : Sha256State :=
  ⟨1779033703, 3144134277, 1013904242, 2773480762,
   1359893119, 2600822924, 528734635, 1541459225⟩

/-- Big-endian 8-byte encoding of a natural number (the length field). -/
def be64 (n : Nat) : List Nat :=
  [n >>> 56 % 256, n >>> 48 % 256, n >>> 40 % 256, n >>> 32 % 256,
   n >>> 24 % 256, n >>> 16 % 256, n >>> 8 % 256, n % 256]

/-- SHA-256 padding: append `0x80`, zero bytes, then the 64-bit bit length. -/
def sha256Pad (msg : List Nat) : List Nat :=
  let L := msg.length
  let padLen := (64 - ((L + 9) % 64)) % 64
  msg ++ [128] ++ List.replicate padLen 0 ++ be64 (8 * L)

/-- Split a byte list into successive 64-byte blocks. -/
def chunks64 (l : List Nat) : List (List Nat) :=
  if l = [] then [] else l.take 64 :: chunks64 (l.drop 64)
termination_by l.length
decreasing_by
  rename_i hne
  have hpos : 0 < l.length := List.length_pos.mpr hne
  simp only [List.length_drop]
  omega

/-- The 16 initial big-endian message-schedule words of one block. -/
def blockWords (block : List Nat) : List Nat :=
  (List.range 16).map fun i =>
    block.getD (4 * i) 0 * 16777216 + block.getD (4 * i + 1) 0 * 65536 +
    block.getD (4 * i + 2) 0 * 256 + block.getD (4 * i + 3) 0

/-- Extend the message schedule from 16 to 64 words. -/
def extendSchedule (ws : List Nat) : Nat → List Nat
  | 0 => ws
  | n + 1 =>
    let i := ws.length
    let nw := add32 (add32 (smallSig1 (ws.getD (i - 2) 0)) (ws.getD (i - 7) 0))
                    (add32 (smallSig0 (ws.getD (i - 15) 0)) (ws.getD (i - 16) 0))
    extendSchedule (ws ++ [nw]) n

def schedule (block : List Nat) : List Nat :=
  extendSchedule (blockWords block) 48

/-- One SHA-256 round. -/
def sha256Round (st : Sha256State) (kw : Nat × Nat) : Sha256State :=
  let t1 := add32 (add32 (add32 st.h (bigSig1 st.e)) (add32 (chF st.e st.f st.g) kw.1)) kw.2
  let t2 := add32 (bigSig0 st.a) (majF st.a st.b st.c)
  ⟨add32 t1 t2, st.a, st.b, st.c, add32 st.d t1, st.e, st.f, st.g⟩

/-- Compress one 64-byte block into the running state. -/
def sha256Compress (st : Sha256State) (block : List Nat) : Sha256State :=
  let fin := (sha256K.zip (schedule block)).foldl
    (fun s kw => sha256Round s (kw.2, kw.1)) st
  ⟨add32 st.a fin.a, add32 st.b fin.b, add32 st.c fin.c, add32 st.d fin.d,
   add32 st.e fin.e, add32 st.f fin.f, add32 st.g fin.g, add32 st.h fin.h⟩

def sha256Final (msg : List Nat) : Sha256State :=
  (chunks64 (sha256Pad msg)).foldl sha256Compress sha256Init

/-- A lowercase hexadecimal digit character. -/
def hexDigit (n : Nat) : Char :=
  if n < 10 then Char.ofNat (48 + n) else Char.ofNat (87 + n)

/-- Fixed-width 8-character lowercase hex rendering of one 32-bit word. -/
def hex8 (w : Nat) : List Char :=
  [hexDigit (w / 268435456 % 16), hexDigit (w / 16777216 % 16),
   hexDigit (w / 1048576 % 16), hexDigit (w / 65536 % 16),
   hexDigit (w / 4096 % 16), hexDigit (w / 256 % 16),
   hexDigit (w / 16 % 16), hexDigit (w % 16)]

def digestChars (st : Sha256State) : List Char :=
  hex8 st.a ++ hex8 st.b ++ hex8 st.c ++ hex8 st.d ++
  hex8 st.e ++ hex8 st.f ++ hex8 st.g ++ hex8 st.h

/-- Model of Python `hashlib.sha256(bytes).hexdigest()`. -/
def sha256hex (msg : List Nat) : String :=
  String.mk (digestChars (sha256Final msg))

/-! ## UTF-8 encoding (model of Python `str.encode("utf-8")`) -/

def utf8Char (c : Char) : List Nat :=
  let n := c.toNat
  if n < 128 then [n]
  else if n < 2048 then [192 ||| (n >>> 6), 128 ||| (n &&& 63)]
  else if n < 65536 then
    [224 ||| (n >>> 12), 128 ||| ((n >>> 6) &&& 63), 128 ||| (n &&& 63)]
  else
    [240 ||| (n >>> 18), 128 ||| ((n >>> 12) &&& 63),
     128 ||| ((n >>> 6) &&& 63), 128 ||| (n &&& 63)]

def utf8Bytes (s : String) : List Nat :=
  (s.data.map utf8Char).flatten

/-! ## Python values and `json.dumps(..., sort_keys=True, ensure_ascii=False)`

`PyVal` models the JSON-serializable Python values passed as keyword
arguments (`str`, `int`, `bool`, `None`, `list`, `dict`), plus `other`,
which stands for any Python object that `json.dumps` rejects with a
`TypeError` (its string is the object's `repr`). -/

inductive PyVal where
  | str (s : String)
  | int (n : Int)
  | bool (b : Bool)
  | none
  | list (xs : List PyVal)
  | dict (kvs : List (String × PyVal))
  | other (r : String)

/-- JSON string escaping with `ensure_ascii=False`: only the two quoting
characters, the named control escapes and other control characters are
escaped; non-ASCII text is passed through unchanged. -/
def jsonEscapeChar (c : Char) : String :=
  if c = '"' then "\\\""
  else if c = '\\' then "\\\\"
  else if c = '\n' then "\\n"
  else if c = '\t' then "\\t"
  else if c = '\r' then "\\r"
  else if c.toNat = 8 then "\\b"
  else if c.toNat = 12 then "\\f"
  else if c.toNat < 32 then
    "\\u00" ++ String.mk [hexDigit (c.toNat / 16), hexDigit (c.toNat % 16)]
  else String.singleton c

def jsonStr (s : String) : String :=
  "\"" ++ String.join (s.data.map jsonEscapeChar) ++ "\""

/-- Lexicographic comparison of character lists by Unicode code point,
the order Python uses on `str` for `sort_keys=True`. -/
def lexLt : List Char → List Char → Bool
  | [], [] => false
  | [], _ :: _ => true
  | _ :: _, [] => false
  | a :: as, b :: bs =>
    if a.toNat < b.toNat then true
    else if b.toNat < a.toNat then false
    else lexLt as bs

def strLt (s t : String) : Bool := lexLt s.data t.data

def strLe (s t : String) : Bool := !(strLt t s)

/-- Insertion sort of (key, serialized value) pairs by key. -/
def insertPair (p : String × String) : List (String × String) → List (String × String)
  | [] => [p]
  | q :: qs => if strLe p.1 q.1 then p :: q :: qs else q :: insertPair p qs

def sortPairs : List (String × String) → List (String × String)
  | [] => []
  | p :: ps => insertPair p (sortPairs ps)

mutual

/-- Model of `json.dumps(v, sort_keys=True, ensure_ascii=False)`:
`none` models the `TypeError` raised on a non-serializable value.
Mapping entries are serialized in place and then emitted in sorted key
order (value serialization is independent of position, so this equals
sorting the keys first). -/
def dumps : PyVal → Option String
  | .str s => some (jsonStr s)
  | .int n => some (toString n)
  | .bool b => some (if b then "true" else "false")
  | .none => some "null"
  | .list xs =>
    match dumpsList xs with
    | some parts => some ("[" ++ String.intercalate ", " parts ++ "]")
    | Option.none => Option.none
  | .dict kvs =>
    match dumpsPairs kvs with
    | some ps => some ("\x7b" ++ String.intercalate ", "
        ((sortPairs ps).map fun p => jsonStr p.1 ++ ": " ++ p.2) ++ "\x7d")
    | Option.none => Option.none
  | .other _ => Option.none

def dumpsList : List PyVal → Option (List String)
  | [] => some []
  | x :: xs =>
    match dumps x, dumpsList xs with
    | some s, some ss => some (s :: ss)
    | _, _ => Option.none

def dumpsPairs : List (String × PyVal) → Option (List (String × String))
  | [] => some []
  | (k, v) :: xs =>
    match dumps v, dumpsPairs xs with
    | some s, some ss => some ((k, s) :: ss)
    | _, _ => Option.none

end

mutual

/-- Model of Python `str(...)` on parameter dictionaries, used by the
fallback branch of `get_cache_key` (string escaping inside `repr` is
elided; it does not matter for any property proved here). -/
def pyRepr : PyVal → String
  | .str s => "\x27" ++ s ++ "\x27"
  | .int n => toString n
  | .bool b => if b then "True" else "False"
  | .none => "None"
  | .list xs => "[" ++ String.intercalate ", " (pyReprList xs) ++ "]"
  | .dict kvs => "\x7b" ++ String.intercalate ", " (pyReprPairs kvs) ++ "\x7d"
  | .other r => r

def pyReprList : List PyVal → List String
  | [] => []
  | x :: xs => pyRepr x :: pyReprList xs

def pyReprPairs : List (String × PyVal) → List String
  | [] => []
  | (k, v) :: xs => ("\x27" ++ k ++ "\x27" ++ ": " ++ pyRepr v) :: pyReprPairs xs

end

/-! ## `grading_utils.get_cache_key` -/

def containsKey (k : String) : List (String × PyVal) → Bool
  | [] => false
  | (k2, _) :: xs => if k2 = k then true else containsKey k xs

def lookupV (k : String) : List (String × PyVal) → Option PyVal
  | [] => Option.none
  | (k2, v) :: xs => if k2 = k then some v else lookupV k xs

/-- Model of the version defaulting: when the key "version" is absent
from the parameter dict the code inserts it with value "2.0", which on a
Python dict appends it in insertion order. -/
def withVersion (params : List (String × PyVal)) : List (String × PyVal) :=
  if containsKey "version" params then params
  else params ++ [("version", .str "2.0")]

/-- Model of the key-data dict merging the entry "type" (valued by the
cache type) with the parameters: the key "type" sits first and is
overridden by a "type" entry of `params` if one exists; the remaining
parameters follow in insertion order. -/
def key_data (cache_type : String) (params : List (String × PyVal)) :
    List (String × PyVal) :=
  let p := withVersion params
  ("type", (lookupV "type" p).getD (.str cache_type)) ::
    p.filter (fun kv => kv.1 != "type")

/-- Model of `grading_utils.get_cache_key`: serialize the key data as
canonical JSON and hash it; if serialization fails, hash the
fallback string (the cache type, an underscore, and the str rendering of
the parameters) instead.  The function is
total: it never raises. -/
def get_cache_key (cache_type : String) (params : List (String × PyVal)) :
    String × String :=
  match dumps (.dict (key_data cache_type params)) with
  | some key_str => (cache_type, sha256hex (utf8Bytes key_str))
  | Option.none =>
    (cache_type,
     sha256hex (utf8Bytes (cache_type ++ "_" ++ pyRepr (.dict (withVersion params)))))

/-- Model of `grading_utils.get_from_cache`: a pure lookup in the store;
it performs no artifact-existence check of its own. -/
def get_from_cache (store : String × String → Option PyVal)
    (cache_key : String × String) : Option PyVal :=
  store cache_key

/-! ## `agents/common.run_agent_with_retry`

One remote attempt is an oracle value: `raises msg` models any exception
escaping the attempt body, `returns Option.none` models a falsy or
unusable `session.state["output"]`, and `returns (some a)` models a valid
structured output.  A trace records how many attempts were invoked, the
backoff sleeps performed (in seconds), and the outcome, where
`Except.error` models an exception propagating out of the function. -/

inductive AttemptOutcome (α : Type) where
  | raises (msg : String)
  | returns (out : Option α)

structure RetryTrace (α : Type) where
  calls : Nat
  sleeps : List Nat
  result : Except String α

/-- The loop body of `run_agent_with_retry`, starting at a given 0-based
attempt index with a given number of remaining iterations.  On a missing
structured output before the last attempt, the code only logs and loops
again — no exception, hence no backoff sleep; on the last attempt it
raises `ValueError`, which its own handler re-raises.  On any exception
before the last attempt it sleeps `2 ** attempt` and retries; on the last
attempt it re-raises. -/
def runRetryAux (attempts : Nat → AttemptOutcome α) (attempt : Nat) :
    Nat → RetryTrace α
  | 0 => ⟨0, [], .error "empty retry range"⟩
  | remaining + 1 =>
    match attempts attempt with
    | .returns (some a) => ⟨1, [], .ok a⟩
    | .returns Option.none =>
      if remaining = 0 then ⟨1, [], .error "No valid structured response received"⟩
      else
        let t := runRetryAux attempts (attempt + 1) remaining
        ⟨t.calls + 1, t.sleeps, t.result⟩
    | .raises msg =>
      if remaining = 0 then ⟨1, [], .error msg⟩
      else
        let t := runRetryAux attempts (attempt + 1) remaining
        ⟨t.calls + 1, 2 ^ attempt :: t.sleeps, t.result⟩

/-- Model of `run_agent_with_retry` (the Python function returns `None`
if `max_retries = 0`; that degenerate case is modelled as an error). -/
def run_agent_with_retry (attempts : Nat → AttemptOutcome α)
    (max_retries : Nat) : RetryTrace α :=
  runRetryAux attempts 0 max_retries

/-! ## `agents/grading_agent` -/

structure GradingResult where
  extracted_text : String
  similarity_score : ℚ
  mark : ℚ
  reasoning : String
deriving DecidableEq

/-- The sanitization performed on a validated grading result:
`result.similarity_score = max(0.0, min(1.0, ...))` and
`result.mark = max(0.0, min(float(total_marks), ...))`. -/
def sanitizeGrading (total_marks : ℚ) (r : GradingResult) : GradingResult :=
  { r with similarity_score := max 0 (min 1 r.similarity_score),
           mark := max 0 (min total_marks r.mark) }

structure GradeTrace where
  result : GradingResult
  calls : Nat
  sleeps : List Nat
  writes : List GradingResult
deriving DecidableEq

/-- Model of `grade_answer_with_ai`: cache hit returns the cached value
as-is; otherwise the retry helper runs, a validated result is sanitized,
written to the cache and returned, and any escaping exception is caught
and converted into the zero-mark fallback `GradingResult` (no cache
write). -/
def grade_answer_with_ai (submitted_answer : String) (total_marks : ℚ)
    (cached : Option GradingResult)
    (attempts : Nat → AttemptOutcome GradingResult)
    (max_retries : Nat) : GradeTrace :=
  match cached with
  | some c => ⟨c, 0, [], []⟩
  | Option.none =>
    let t := run_agent_with_retry attempts max_retries
    match t.result with
    | .ok r =>
      let s := sanitizeGrading total_marks r
      ⟨s, t.calls, t.sleeps, [s]⟩
    | .error e =>
      ⟨⟨submitted_answer, 0, 0, "Error: Grading failed - " ++ e⟩,
       t.calls, t.sleeps, []⟩

/-- Model of `grade_answer_with_ocr_and_ai`: identical control flow with
an empty `extracted_text` in the fallback. -/
def grade_answer_with_ocr_and_ai (total_marks : ℚ)
    (cached : Option GradingResult)
    (attempts : Nat → AttemptOutcome GradingResult)
    (max_retries : Nat) : GradeTrace :=
  match cached with
  | some c => ⟨c, 0, [], []⟩
  | Option.none =>
    let t := run_agent_with_retry attempts max_retries
    match t.result with
    | .ok r =>
      let s := sanitizeGrading total_marks r
      ⟨s, t.calls, t.sleeps, [s]⟩
    | .error e =>
      ⟨⟨"", 0, 0, "Error: OCR+Grading failed - " ++ e⟩, t.calls, t.sleeps, []⟩

/-! ## `agents/marking_scheme_agent.extract_marking_scheme_with_ai`

The payload is the returned pair `(questions_data, general_guide)`;
question dicts are kept abstract as strings. -/

structure MSTrace where
  result : Except String (List String × String)
  calls : Nat
  sleeps : List Nat
  writes : List (List String × String)

/-- Model of `extract_marking_scheme_with_ai`: unlike every other call
site, its final `except` handler re-raises, so retry exhaustion
propagates the exception to the caller. -/
def extract_marking_scheme_with_ai (cached : Option (List String × String))
    (attempts : Nat → AttemptOutcome (List String × String))
    (max_retries : Nat) : MSTrace :=
  match cached with
  | some c => ⟨.ok c, 0, [], []⟩
  | Option.none =>
    let t := run_agent_with_retry attempts max_retries
    match t.result with
    | .ok r => ⟨.ok r, t.calls, t.sleeps, [r]⟩
    | .error e => ⟨.error e, t.calls, t.sleeps, []⟩

/-! ## `agents/annotation_agent.extract_annotations_with_ai` -/

structure BoundingBox where
  x : Int
  y : Int
  width : Int
  height : Int
  label : String
deriving DecidableEq

structure AnnTrace where
  result : List BoundingBox
  calls : Nat
  sleeps : List Nat
deriving DecidableEq

/-- The annotation retry loop: a missing structured output raises
`ValueError` inside the `try`, so both failure shapes reach the handler
and back off; after the last attempt the function returns
`BoundingBoxResponse(boxes=[])` instead of raising. -/
def extractAnnotationsAux (attempts : Nat → AttemptOutcome (List BoundingBox))
    (attempt : Nat) : Nat → AnnTrace
  | 0 => ⟨[], 0, []⟩
  | remaining + 1 =>
    match attempts attempt with
    | .returns (some bs) => ⟨bs, 1, []⟩
    | .returns Option.none =>
      if remaining = 0 then ⟨[], 1, []⟩
      else
        let t := extractAnnotationsAux attempts (attempt + 1) remaining
        ⟨t.result, t.calls + 1, 2 ^ attempt :: t.sleeps⟩
    | .raises _ =>
      if remaining = 0 then ⟨[], 1, []⟩
      else
        let t := extractAnnotationsAux attempts (attempt + 1) remaining
        ⟨t.result, t.calls + 1, 2 ^ attempt :: t.sleeps⟩

/-- Model of `extract_annotations_with_ai`; a failed image read returns
the empty box list without invoking the agent at all. -/
def extract_annotations_with_ai (imageReadOk : Bool)
    (attempts : Nat → AttemptOutcome (List BoundingBox))
    (max_retries : Nat) : AnnTrace :=
  if imageReadOk then extractAnnotationsAux attempts 0 max_retries
  else ⟨[], 0, []⟩

/-! ## `agents/moderation_agent.moderate_grades_with_ai` -/

/-- One input row of the moderation call; only its `"mark"` entry is ever
read by the code modelled here. -/
structure ModEntry where
  mark : ℚ
deriving DecidableEq

structure ModerationItem where
  moderated_mark : ℚ
  flag : Bool
  note : String
deriving DecidableEq

structure ModerationResponse where
  items : List ModerationItem
deriving DecidableEq

/-- Model of the moderation sanitization: the moderated mark is clamped
into the closed interval from 0 to the total marks. -/
def sanitizeModItem (total_marks : ℚ) (it : ModerationItem) : ModerationItem :=
  { it with moderated_mark := max 0 (min total_marks it.moderated_mark) }

/-- The exhaustion fallback: one item per input entry, carrying the
entry's original mark. -/
def moderationFallback (entries : List ModEntry) : List ModerationItem :=
  entries.map fun e => ⟨e.mark, false, "moderation_error"⟩

structure ModTrace where
  result : List ModerationItem
  calls : Nat
  sleeps : List Nat
  writes : List (List ModerationItem)
deriving DecidableEq

/-- The moderation retry loop.  A response whose item count differs from
the entry count raises `ValueError`, which the handler treats like any
other attempt failure (backoff and retry); a falsy output only logs and
loops without sleeping; the loop never re-raises — exhaustion falls
through to the original-marks fallback.  The source function contains no
`save_to_cache` call, so every branch records an empty write list. -/
def moderateAux (entries : List ModEntry) (total_marks : ℚ)
    (attempts : Nat → AttemptOutcome ModerationResponse) (attempt : Nat) :
    Nat → ModTrace
  | 0 => ⟨moderationFallback entries, 0, [], []⟩
  | remaining + 1 =>
    match attempts attempt with
    | .raises _ =>
      if remaining = 0 then ⟨moderationFallback entries, 1, [], []⟩
      else
        let t := moderateAux entries total_marks attempts (attempt + 1) remaining
        ⟨t.result, t.calls + 1, 2 ^ attempt :: t.sleeps, t.writes⟩
    | .returns Option.none =>
      if remaining = 0 then ⟨moderationFallback entries, 1, [], []⟩
      else
        let t := moderateAux entries total_marks attempts (attempt + 1) remaining
        ⟨t.result, t.calls + 1, t.sleeps, t.writes⟩
    | .returns (some resp) =>
      if resp.items.length != entries.length then
        if remaining = 0 then ⟨moderationFallback entries, 1, [], []⟩
        else
          let t := moderateAux entries total_marks attempts (attempt + 1) remaining
          ⟨t.result, t.calls + 1, 2 ^ attempt :: t.sleeps, t.writes⟩
      else ⟨resp.items.map (sanitizeModItem total_marks), 1, [], []⟩

/-- Model of `moderate_grades_with_ai`. -/
def moderate_grades_with_ai (entries : List ModEntry) (total_marks : ℚ)
    (attempts : Nat → AttemptOutcome ModerationResponse)
    (max_retries : Nat) : ModTrace :=
  moderateAux entries total_marks attempts 0 max_retries

/-! ## Artifact-validating cache lookups in `agents/analytics_agent`

The filesystem is abstracted as the predicate `fs : String → Bool`
(`os.path.exists`). -/

def strStartsWith (s pre : String) : Bool := pre.data.isPrefixOf s.data

structure ClassOverviewCache where
  report : String
  infograph_image_path : Option String
deriving DecidableEq

structure QuestionInsightsCache where
  report_text : String
  infograph_image_path : Option String
deriving DecidableEq

/-- The cache-hit path of `generate_class_overview_with_ai`: on a hit
whose payload carries a truthy image path that is not an
`IMAGE_GENERATION_*` sentinel and no longer exists, the entry is
invalidated (treated as a miss) and a warning diagnostic is logged. -/
def generateClassOverviewLookup (fs : String → Bool)
    (cached : Option ClassOverviewCache) :
    Option ClassOverviewCache × List String :=
  match cached with
  | Option.none => (Option.none, [])
  | some c =>
    match c.infograph_image_path with
    | Option.none => (some c, [])
    | some p =>
      if (p != "") && !(strStartsWith p "IMAGE_GENERATION_") && !(fs p) then
        (Option.none,
         ["Cache hit but image file missing: " ++ p ++ ". Invalidating cache."])
      else (some c, [])

/-- The identical cache-hit check of `generate_question_insights_with_ai`. -/
def generateQuestionInsightsLookup (fs : String → Bool)
    (cached : Option QuestionInsightsCache) :
    Option QuestionInsightsCache × List String :=
  match cached with
  | Option.none => (Option.none, [])
  | some c =>
    match c.infograph_image_path with
    | Option.none => (some c, [])
    | some p =>
      if (p != "") && !(strStartsWith p "IMAGE_GENERATION_") && !(fs p) then
        (Option.none,
         ["Cache hit but image file missing: " ++ p ++ ". Invalidating cache."])
      else (some c, [])

/-! ## Attempt classification helpers -/

/-- The attempt did not produce a valid structured output (it raised, or
its output was missing/invalid). -/
def oneFailsB : AttemptOutcome α → Bool
  | .raises _ => true
  | .returns Option.none => true
  | .returns (some _) => false

/-- The attempt raised an exception. -/
def isRaisesB : AttemptOutcome α → Bool
  | .raises _ => true
  | _ => false

/-- The attempt completed without exception but with a missing/invalid
structured output. -/
def isNoneOutB : AttemptOutcome α → Bool
  | .returns Option.none => true
  | _ => false

/-! ## Lemmas about the retry loop -/

theorem runRetryAux_exhaust (attempts : Nat → AttemptOutcome α) :
    ∀ remaining attempt,
    (∀ j, j < remaining → oneFailsB (attempts (attempt + j)) = true) →
    (runRetryAux attempts attempt remaining).calls = remaining ∧
    ∃ e, (runRetryAux attempts attempt remaining).result = Except.error e := by
  intro remaining
  induction remaining with
  | zero => intro attempt _; exact ⟨rfl, "empty retry range", rfl⟩
  | succ r ih =>
    intro attempt hfail
    have h0 : oneFailsB (attempts attempt) = true := by
      have := hfail 0 (by omega)
      rwa [Nat.add_zero] at this
    have hshift : ∀ j, j < r → oneFailsB (attempts (attempt + 1 + j)) = true := by
      intro j hj
      have := hfail (j + 1) (by omega)
      rwa [show attempt + (j + 1) = attempt + 1 + j by omega] at this
    cases hA : attempts attempt with
    | raises msg =>
      by_cases hr : r = 0
      · subst hr; simp [runRetryAux, hA]
      · have ih' := ih (attempt + 1) hshift
        simp only [runRetryAux, hA, hr, if_false]
        exact ⟨by simpa using ih'.1, ih'.2⟩
    | returns out =>
      cases out with
      | some a => rw [hA] at h0; simp [oneFailsB] at h0
      | none =>
        by_cases hr : r = 0
        · subst hr; simp [runRetryAux, hA]
        · have ih' := ih (attempt + 1) hshift
          simp only [runRetryAux, hA, hr, if_false]
          exact ⟨by simpa using ih'.1, ih'.2⟩

theorem runRetryAux_sleeps_raises (attempts : Nat → AttemptOutcome α) :
    ∀ remaining attempt,
    (∀ j, j < remaining → isRaisesB (attempts (attempt + j)) = true) →
    (runRetryAux attempts attempt remaining).sleeps =
      (List.range (remaining - 1)).map (fun i => 2 ^ (attempt + i)) := by
  intro remaining
  induction remaining with
  | zero => intro attempt _; simp [runRetryAux]
  | succ r ih =>
    intro attempt hfail
    have h0 : isRaisesB (attempts attempt) = true := by
      have := hfail 0 (by omega)
      rwa [Nat.add_zero] at this
    cases hA : attempts attempt with
    | returns out => rw [hA] at h0; simp [isRaisesB] at h0
    | raises msg =>
      by_cases hr : r = 0
      · subst hr; simp [runRetryAux, hA]
      · obtain ⟨s, hs⟩ : ∃ s, r = s + 1 := ⟨r - 1, by omega⟩
        have hshift : ∀ j, j < r → isRaisesB (attempts (attempt + 1 + j)) = true := by
          intro j hj
          have := hfail (j + 1) (by omega)
          rwa [show attempt + (j + 1) = attempt + 1 + j by omega] at this
        have ih' := ih (attempt + 1) hshift
        simp only [runRetryAux, hA, hr, if_false]
        rw [ih', hs]
        simp only [Nat.add_sub_cancel, Nat.succ_sub_one]
        rw [List.range_succ_eq_map]
        simp only [List.map_cons, List.map_map, Nat.add_zero]
        congr 1
        apply List.map_congr_left
        intro i _
        simp only [Function.comp_apply]
        congr 1
        omega

theorem runRetryAux_sleeps_none (attempts : Nat → AttemptOutcome α) :
    ∀ remaining attempt,
    (∀ j, j < remaining → isNoneOutB (attempts (attempt + j)) = true) →
    (runRetryAux attempts attempt remaining).sleeps = [] := by
  intro remaining
  induction remaining with
  | zero => intro attempt _; rfl
  | succ r ih =>
    intro attempt hfail
    have h0 : isNoneOutB (attempts attempt) = true := by
      have := hfail 0 (by omega)
      rwa [Nat.add_zero] at this
    cases hA : attempts attempt with
    | raises msg => rw [hA] at h0; simp [isNoneOutB] at h0
    | returns out =>
      cases out with
      | some a => rw [hA] at h0; simp [isNoneOutB] at h0
      | none =>
        by_cases hr : r = 0
        · subst hr; simp [runRetryAux, hA]
        · have hshift : ∀ j, j < r → isNoneOutB (attempts (attempt + 1 + j)) = true := by
            intro j hj
            have := hfail (j + 1) (by omega)
            rwa [show attempt + (j + 1) = attempt + 1 + j by omega] at this
          have ih' := ih (attempt + 1) hshift
          simp only [runRetryAux, hA, hr, if_false]
          exact ih'

theorem extractAnnotationsAux_exhaust (attempts : Nat → AttemptOutcome (List BoundingBox)) :
    ∀ remaining attempt,
    (∀ j, j < remaining → oneFailsB (attempts (attempt + j)) = true) →
    (extractAnnotationsAux attempts attempt remaining).result = [] ∧
    (extractAnnotationsAux attempts attempt remaining).calls = remaining := by
  intro remaining
  induction remaining with
  | zero => intro attempt _; exact ⟨rfl, rfl⟩
  | succ r ih =>
    intro attempt hfail
    have h0 : oneFailsB (attempts attempt) = true := by
      have := hfail 0 (by omega)
      rwa [Nat.add_zero] at this
    have hshift : ∀ j, j < r → oneFailsB (attempts (attempt + 1 + j)) = true := by
      intro j hj
      have := hfail (j + 1) (by omega)
      rwa [show attempt + (j + 1) = attempt + 1 + j by omega] at this
    cases hA : attempts attempt with
    | raises msg =>
      by_cases hr : r = 0
      · subst hr; simp [extractAnnotationsAux, hA]
      · have ih' := ih (attempt + 1) hshift
        simp only [extractAnnotationsAux, hA, hr, if_false]
        exact ⟨ih'.1, by simpa using ih'.2⟩
    | returns out =>
      cases out with
      | some a => rw [hA] at h0; simp [oneFailsB] at h0
      | none =>
        by_cases hr : r = 0
        · subst hr; simp [extractAnnotationsAux, hA]
        · have ih' := ih (attempt + 1) hshift
          simp only [extractAnnotationsAux, hA, hr, if_false]
          exact ⟨ih'.1, by simpa using ih'.2⟩

/-! ## Claim C1 -/

/-- C1 (amended).  When every attempt fails, `run_agent_with_retry`
invokes the operation exactly `max_retries` times and then raises (it
does not itself return a fallback); the fallback-returning call sites —
here `grade_answer_with_ai` and `extract_annotations_with_ai` — catch
that exception and return their deterministic degraded value (a
zero-mark `GradingResult`, an empty box list) rather than propagating
it.  The claim's universal "never a raised exception" is refuted
separately for `extract_marking_scheme_with_ai`. -/
theorem claim_C1_retry_exhaustion_fallback :
    (∀ (α : Type) (attempts : Nat → AttemptOutcome α) (m : Nat),
      (∀ i, i < m → oneFailsB (attempts i) = true) →
      (run_agent_with_retry attempts m).calls = m ∧
      ∃ e, (run_agent_with_retry attempts m).result = Except.error e) ∧
    (∀ (ans : String) (tm : ℚ) (attempts : Nat → AttemptOutcome GradingResult)
       (m : Nat),
      (∀ i, i < m → oneFailsB (attempts i) = true) →
      (grade_answer_with_ai ans tm Option.none attempts m).calls = m ∧
      ∃ e, (grade_answer_with_ai ans tm Option.none attempts m).result =
        ⟨ans, 0, 0, "Error: Grading failed - " ++ e⟩) ∧
    (∀ (attempts : Nat → AttemptOutcome (List BoundingBox)) (m : Nat),
      (∀ i, i < m → oneFailsB (attempts i) = true) →
      (extract_annotations_with_ai true attempts m).calls = m ∧
      (extract_annotations_with_ai true attempts m).result = []) := by
  have hbase : ∀ (α : Type) (attempts : Nat → AttemptOutcome α) (m : Nat),
      (∀ i, i < m → oneFailsB (attempts i) = true) →
      (run_agent_with_retry attempts m).calls = m ∧
      ∃ e, (run_agent_with_retry attempts m).result = Except.error e := by
    intro α attempts m h
    exact runRetryAux_exhaust attempts m 0 (fun j hj => by simpa using h j hj)
  refine ⟨hbase, ?_, ?_⟩
  · intro ans tm attempts m h
    obtain ⟨hc, e, he⟩ := hbase GradingResult attempts m h
    refine ⟨?_, e, ?_⟩ <;> simp [grade_answer_with_ai, he, hc]
  · intro attempts m h
    have := extractAnnotationsAux_exhaust attempts m 0 (fun j hj => by simpa using h j hj)
    exact ⟨by simpa [extract_annotations_with_ai] using this.2,
           by simpa [extract_annotations_with_ai] using this.1⟩

/-- Witness for C1: with `max_retries = 3` and an operation raising on
every attempt, exactly 3 invocations happen and the callers receive the
degraded values. -/
theorem claim_C1_witness :
    (∀ i, i < 3 → oneFailsB ((fun _ => AttemptOutcome.raises (α := GradingResult) "err") i) = true) ∧
    (run_agent_with_retry (fun _ => AttemptOutcome.raises (α := GradingResult) "err") 3).calls = 3 ∧
    (∃ e, (grade_answer_with_ai "the answer" 5 Option.none
      (fun _ => AttemptOutcome.raises "err") 3).result =
        ⟨"the answer", 0, 0, "Error: Grading failed - " ++ e⟩) ∧
    (extract_annotations_with_ai true (fun _ => AttemptOutcome.raises "err") 3).result = [] := by
  refine ⟨by decide, ?_, ?_, ?_⟩
  · exact (claim_C1_retry_exhaustion_fallback.1 GradingResult _ 3 (by decide)).1
  · exact (claim_C1_retry_exhaustion_fallback.2.1 "the answer" 5 _ 3 (by decide)).2
  · exact (claim_C1_retry_exhaustion_fallback.2.2 _ 3 (by decide)).2

/-- Counterexample for C1 as stated: `extract_marking_scheme_with_ai` is
wrapped by the same executor, yet when all 3 attempts raise, its caller
receives the raised exception (`raise` in its final handler), not a
degraded fallback value. -/
theorem claim_C1_counterexample :
    (extract_marking_scheme_with_ai Option.none
      (fun _ => AttemptOutcome.raises "boom") 3).result = Except.error "boom" := rfl

/-! ## Claim C2 -/

/-- C2 (amended).  In `run_agent_with_retry`, a backoff sleep of
`2 ^ attempt` seconds (0-based attempt index) happens only after an
attempt that raised an exception and only while `attempt <
max_retries - 1`: with the default 3 attempts the observed delays are
1s and 2s — there is no third sleep of 4s.  An attempt that merely
produced no valid structured output is retried without any sleep. -/
theorem claim_C2_backoff :
    (∀ (α : Type) (attempts : Nat → AttemptOutcome α) (m : Nat),
      (∀ i, i < m → isRaisesB (attempts i) = true) →
      (run_agent_with_retry attempts m).sleeps =
        (List.range (m - 1)).map (fun i => 2 ^ i)) ∧
    (∀ (α : Type) (attempts : Nat → AttemptOutcome α) (m : Nat),
      (∀ i, i < m → isNoneOutB (attempts i) = true) →
      (run_agent_with_retry attempts m).sleeps = []) := by
  constructor
  · intro α attempts m h
    have := runRetryAux_sleeps_raises attempts m 0 (fun j hj => by simpa using h j hj)
    rw [run_agent_with_retry, this]
    apply List.map_congr_left
    intro i _
    rw [Nat.zero_add]
  · intro α attempts m h
    exact runRetryAux_sleeps_none attempts m 0 (fun j hj => by simpa using h j hj)

/-- Witness for C2: three always-raising attempts sleep 1s then 2s, and
three attempts with missing output sleep not at all. -/
theorem claim_C2_witness :
    (∀ i, i < 3 → isRaisesB ((fun _ => AttemptOutcome.raises (α := Nat) "err") i) = true) ∧
    (run_agent_with_retry (fun _ => AttemptOutcome.raises (α := Nat) "err") 3).sleeps = [1, 2] ∧
    (run_agent_with_retry (fun _ => AttemptOutcome.returns (α := Nat) Option.none) 3).sleeps = [] := by
  refine ⟨by decide, ?_, ?_⟩
  · rw [claim_C2_backoff.1 Nat _ 3 (by decide)]; decide
  · exact claim_C2_backoff.2 Nat _ 3 (by decide)

/-- Counterexample for C2 as stated: with the default 3 attempts and
base 2 the observed delays are `[1, 2]`, not `[1, 2, 4]` — no sleep
follows the final attempt. -/
theorem claim_C2_counterexample :
    (run_agent_with_retry (fun _ => AttemptOutcome.raises (α := Nat) "transient") 3).sleeps = [1, 2] ∧
    (run_agent_with_retry (fun _ => AttemptOutcome.raises (α := Nat) "transient") 3).sleeps ≠ [1, 2, 4] := by
  constructor <;> decide

/-! ## Lemmas about the moderation loop -/

/-- The moderation attempt failed: it raised, returned no usable output,
or returned an item collection of the wrong cardinality. -/
def modFailsB (entries : List ModEntry) : AttemptOutcome ModerationResponse → Bool
  | .raises _ => true
  | .returns Option.none => true
  | .returns (some resp) => resp.items.length != entries.length

theorem moderateAux_writes (entries : List ModEntry) (tm : ℚ)
    (attempts : Nat → AttemptOutcome ModerationResponse) :
    ∀ remaining attempt,
    (moderateAux entries tm attempts attempt remaining).writes = [] := by
  intro remaining
  induction remaining with
  | zero => intro attempt; rfl
  | succ r ih =>
    intro attempt
    cases hA : attempts attempt with
    | raises msg =>
      by_cases hr : r = 0
      · subst hr; simp [moderateAux, hA]
      · simp only [moderateAux, hA, hr, if_false]; exact ih (attempt + 1)
    | returns out =>
      cases out with
      | none =>
        by_cases hr : r = 0
        · subst hr; simp [moderateAux, hA]
        · simp only [moderateAux, hA, hr, if_false]; exact ih (attempt + 1)
      | some resp =>
        by_cases hlen : resp.items.length = entries.length
        · have hb : (resp.items.length != entries.length) = false := by simp [hlen]
          simp [moderateAux, hA, hb]
        · have hb : (resp.items.length != entries.length) = true := by simp [hlen]
          by_cases hr : r = 0
          · subst hr; simp [moderateAux, hA, hb]
          · simp only [moderateAux, hA, hb, hr, if_false, if_true]
            exact ih (attempt + 1)

/-- Every run of the moderation loop returns either the original-marks
fallback or the sanitized items of some attempt's cardinality-valid
response. -/
theorem moderateAux_spec (entries : List ModEntry) (tm : ℚ)
    (attempts : Nat → AttemptOutcome ModerationResponse) :
    ∀ remaining attempt,
    (moderateAux entries tm attempts attempt remaining).result =
      moderationFallback entries ∨
    ∃ k resp, attempts k = AttemptOutcome.returns (some resp) ∧
      resp.items.length = entries.length ∧
      (moderateAux entries tm attempts attempt remaining).result =
        resp.items.map (sanitizeModItem tm) := by
  intro remaining
  induction remaining with
  | zero => intro attempt; exact Or.inl rfl
  | succ r ih =>
    intro attempt
    cases hA : attempts attempt with
    | raises msg =>
      by_cases hr : r = 0
      · subst hr; left; simp [moderateAux, hA]
      · simp only [moderateAux, hA, hr, if_false]; exact ih (attempt + 1)
    | returns out =>
      cases out with
      | none =>
        by_cases hr : r = 0
        · subst hr; left; simp [moderateAux, hA]
        · simp only [moderateAux, hA, hr, if_false]; exact ih (attempt + 1)
      | some resp =>
        by_cases hlen : resp.items.length = entries.length
        · have hb : (resp.items.length != entries.length) = false := by simp [hlen]
          right
          exact ⟨attempt, resp, hA, hlen, by simp [moderateAux, hA, hb]⟩
        · have hb : (resp.items.length != entries.length) = true := by simp [hlen]
          by_cases hr : r = 0
          · subst hr; left; simp [moderateAux, hA, hb]
          · simp only [moderateAux, hA, hb, hr, if_false, if_true]
            exact ih (attempt + 1)

theorem moderateAux_length (entries : List ModEntry) (tm : ℚ)
    (attempts : Nat → AttemptOutcome ModerationResponse)
    (remaining attempt : Nat) :
    (moderateAux entries tm attempts attempt remaining).result.length =
      entries.length := by
  rcases moderateAux_spec entries tm attempts remaining attempt with h | ⟨k, resp, _, hlen, h⟩
  · rw [h]; simp [moderationFallback]
  · rw [h]; simp [hlen]

theorem moderateAux_exhaust (entries : List ModEntry) (tm : ℚ)
    (attempts : Nat → AttemptOutcome ModerationResponse) :
    ∀ remaining attempt,
    (∀ j, j < remaining → modFailsB entries (attempts (attempt + j)) = true) →
    (moderateAux entries tm attempts attempt remaining).result =
      moderationFallback entries := by
  intro remaining
  induction remaining with
  | zero => intro attempt _; rfl
  | succ r ih =>
    intro attempt hfail
    have h0 : modFailsB entries (attempts attempt) = true := by
      have := hfail 0 (by omega)
      rwa [Nat.add_zero] at this
    have hshift : ∀ j, j < r → modFailsB entries (attempts (attempt + 1 + j)) = true := by
      intro j hj
      have := hfail (j + 1) (by omega)
      rwa [show attempt + (j + 1) = attempt + 1 + j by omega] at this
    cases hA : attempts attempt with
    | raises msg =>
      by_cases hr : r = 0
      · subst hr; simp [moderateAux, hA]
      · simp only [moderateAux, hA, hr, if_false]; exact ih (attempt + 1) hshift
    | returns out =>
      cases out with
      | none =>
        by_cases hr : r = 0
        · subst hr; simp [moderateAux, hA]
        · simp only [moderateAux, hA, hr, if_false]; exact ih (attempt + 1) hshift
      | some resp =>
        rw [hA] at h0
        have hb : (resp.items.length != entries.length) = true := h0
        by_cases hr : r = 0
        · subst hr; simp [moderateAux, hA, hb]
        · simp only [moderateAux, hA, hb, hr, if_false, if_true]
          exact ih (attempt + 1) hshift

theorem moderateAux_calls_pos (entries : List ModEntry) (tm : ℚ)
    (attempts : Nat → AttemptOutcome ModerationResponse)
    (remaining attempt : Nat) (h : 1 ≤ remaining) :
    1 ≤ (moderateAux entries tm attempts attempt remaining).calls := by
  cases remaining with
  | zero => omega
  | succ r =>
    cases hA : attempts attempt with
    | raises msg =>
      by_cases hr : r = 0
      · subst hr; simp [moderateAux, hA]
      · simp [moderateAux, hA, hr]
    | returns out =>
      cases out with
      | none =>
        by_cases hr : r = 0
        · subst hr; simp [moderateAux, hA]
        · simp [moderateAux, hA, hr]
      | some resp =>
        by_cases hlen : resp.items.length = entries.length
        · have hb : (resp.items.length != entries.length) = false := by simp [hlen]
          simp [moderateAux, hA, hb]
        · have hb : (resp.items.length != entries.length) = true := by simp [hlen]
          by_cases hr : r = 0
          · subst hr; simp [moderateAux, hA, hb]
          · simp [moderateAux, hA, hb, hr]

/-- If the first `k + 1` attempts all fail and at least `k + 2` attempts
remain available, the loop consults at least `k + 2` attempts: a failed
attempt before the last is always retried. -/
theorem moderateAux_calls_ge (entries : List ModEntry) (tm : ℚ)
    (attempts : Nat → AttemptOutcome ModerationResponse) :
    ∀ k attempt remaining, k + 1 < remaining →
    (∀ j, j ≤ k → modFailsB entries (attempts (attempt + j)) = true) →
    k + 2 ≤ (moderateAux entries tm attempts attempt remaining).calls := by
  intro k
  induction k with
  | zero =>
    intro attempt remaining hrem hfail
    obtain ⟨r, rfl⟩ : ∃ r, remaining = r + 1 := ⟨remaining - 1, by omega⟩
    have hr : r ≠ 0 := by omega
    have h0 : modFailsB entries (attempts attempt) = true := by
      have := hfail 0 (by omega)
      rwa [Nat.add_zero] at this
    have hpos := moderateAux_calls_pos entries tm attempts r (attempt + 1) (by omega)
    cases hA : attempts attempt with
    | raises msg => simp only [moderateAux, hA, hr, if_false]; omega
    | returns out =>
      cases out with
      | none => simp only [moderateAux, hA, hr, if_false]; omega
      | some resp =>
        rw [hA] at h0
        have hb : (resp.items.length != entries.length) = true := h0
        simp only [moderateAux, hA, hb, hr, if_false, if_true]
        omega
  | succ k ih =>
    intro attempt remaining hrem hfail
    obtain ⟨r, rfl⟩ : ∃ r, remaining = r + 1 := ⟨remaining - 1, by omega⟩
    have hr : r ≠ 0 := by omega
    have h0 : modFailsB entries (attempts attempt) = true := by
      have := hfail 0 (by omega)
      rwa [Nat.add_zero] at this
    have hshift : ∀ j, j ≤ k → modFailsB entries (attempts (attempt + 1 + j)) = true := by
      intro j hj
      have := hfail (j + 1) (by omega)
      rwa [show attempt + (j + 1) = attempt + 1 + j by omega] at this
    have ih' := ih (attempt + 1) r (by omega) hshift
    cases hA : attempts attempt with
    | raises msg => simp only [moderateAux, hA, hr, if_false]; omega
    | returns out =>
      cases out with
      | none => simp only [moderateAux, hA, hr, if_false]; omega
      | some resp =>
        rw [hA] at h0
        have hb : (resp.items.length != entries.length) = true := h0
        simp only [moderateAux, hA, hb, hr, if_false, if_true]
        omega

/-! ## Claim C7 -/

/-- C7.  If the moderation attempt at index `k` (with earlier attempts
having failed and at least one more attempt available) returns an item
collection whose length differs from the number of input entries, that
attempt is treated as a validation failure: the loop goes on to invoke
at least one further attempt, the mismatched collection is never the
returned result, and — the source function containing no
`save_to_cache` call at all — nothing is ever stored in the cache. -/
theorem claim_C7_cardinality_validation (entries : List ModEntry) (tm : ℚ)
    (attempts : Nat → AttemptOutcome ModerationResponse) (m k : Nat)
    (resp : ModerationResponse)
    (hk : k + 1 < m)
    (hprev : ∀ j, j < k → modFailsB entries (attempts j) = true)
    (hAk : attempts k = AttemptOutcome.returns (some resp))
    (hmm : resp.items.length ≠ entries.length) :
    k + 2 ≤ (moderate_grades_with_ai entries tm attempts m).calls ∧
    (moderate_grades_with_ai entries tm attempts m).result.length = entries.length ∧
    (moderate_grades_with_ai entries tm attempts m).result ≠
      resp.items.map (sanitizeModItem tm) ∧
    (moderate_grades_with_ai entries tm attempts m).writes = [] := by
  have hall : ∀ j, j ≤ k → modFailsB entries (attempts (0 + j)) = true := by
    intro j hj
    rw [Nat.zero_add]
    rcases Nat.lt_or_ge j k with h | h
    · exact hprev j h
    · have : j = k := by omega
      subst this
      simp [modFailsB, hAk, hmm]
  refine ⟨moderateAux_calls_ge entries tm attempts k 0 m hk hall,
          moderateAux_length entries tm attempts m 0, ?_,
          moderateAux_writes entries tm attempts m 0⟩
  intro hcontra
  have h1 : (moderate_grades_with_ai entries tm attempts m).result.length =
      entries.length := moderateAux_length entries tm attempts m 0
  rw [hcontra] at h1
  simp at h1
  exact hmm h1

/-- Witness for C7: two entries, an agent that always returns a single
moderation item, `max_retries = 3`: the first attempt's mismatched
collection is rejected and retried. -/
theorem claim_C7_witness :
    (0 + 1 < 3 ∧
      (([⟨(9 : ℚ), false, "n"⟩] : List ModerationItem).length ≠
        ([⟨(3 : ℚ)⟩, ⟨(5 : ℚ)⟩] : List ModEntry).length)) ∧
    0 + 2 ≤ (moderate_grades_with_ai [⟨3⟩, ⟨5⟩] 5
      (fun _ => AttemptOutcome.returns (some ⟨[⟨9, false, "n"⟩]⟩)) 3).calls ∧
    (moderate_grades_with_ai [⟨3⟩, ⟨5⟩] 5
      (fun _ => AttemptOutcome.returns (some ⟨[⟨9, false, "n"⟩]⟩)) 3).result.length = 2 ∧
    (moderate_grades_with_ai [⟨3⟩, ⟨5⟩] 5
      (fun _ => AttemptOutcome.returns (some ⟨[⟨9, false, "n"⟩]⟩)) 3).writes = [] := by
  have h := claim_C7_cardinality_validation [⟨3⟩, ⟨5⟩] 5
    (fun _ => AttemptOutcome.returns (some ⟨[⟨9, false, "n"⟩]⟩)) 3 0
    ⟨[⟨9, false, "n"⟩]⟩ (by decide) (by omega) rfl (by decide)
  exact ⟨⟨by decide, by decide⟩, h.1, h.2.1, h.2.2.2⟩

/-! ## Claim C8 -/

/-- C8.  In both grading entry points the cache write happens only on
the validated-success path: either no write occurs at all (cache hit or
degraded/error path), or the retry helper succeeded and exactly the
sanitized successful value was written and returned — so the zero-mark
fallback result is never persisted. -/
theorem claim_C8_no_write_on_degraded_path :
    (∀ (ans : String) (tm : ℚ) (cached : Option GradingResult)
       (attempts : Nat → AttemptOutcome GradingResult) (m : Nat),
      (grade_answer_with_ai ans tm cached attempts m).writes = [] ∨
      ∃ r, cached = Option.none ∧
        (run_agent_with_retry attempts m).result = Except.ok r ∧
        (grade_answer_with_ai ans tm cached attempts m).writes =
          [sanitizeGrading tm r] ∧
        (grade_answer_with_ai ans tm cached attempts m).result =
          sanitizeGrading tm r) ∧
    (∀ (tm : ℚ) (cached : Option GradingResult)
       (attempts : Nat → AttemptOutcome GradingResult) (m : Nat),
      (grade_answer_with_ocr_and_ai tm cached attempts m).writes = [] ∨
      ∃ r, cached = Option.none ∧
        (run_agent_with_retry attempts m).result = Except.ok r ∧
        (grade_answer_with_ocr_and_ai tm cached attempts m).writes =
          [sanitizeGrading tm r] ∧
        (grade_answer_with_ocr_and_ai tm cached attempts m).result =
          sanitizeGrading tm r) := by
  constructor
  · intro ans tm cached attempts m
    cases cached with
    | some c => left; rfl
    | none =>
      cases h : (run_agent_with_retry attempts m).result with
      | error e => left; simp [grade_answer_with_ai, h]
      | ok r =>
        right
        exact ⟨r, rfl, rfl, by simp [grade_answer_with_ai, h],
               by simp [grade_answer_with_ai, h]⟩
  · intro tm cached attempts m
    cases cached with
    | some c => left; rfl
    | none =>
      cases h : (run_agent_with_retry attempts m).result with
      | error e => left; simp [grade_answer_with_ocr_and_ai, h]
      | ok r =>
        right
        exact ⟨r, rfl, rfl, by simp [grade_answer_with_ocr_and_ai, h],
               by simp [grade_answer_with_ocr_and_ai, h]⟩

/-! ## Claim C9 -/

/-- C9.  `moderate_grades_with_ai` returns exactly one item per input
entry on every path: the result is either the sanitized items of a
cardinality-valid response, or the fallback carrying each entry's
original mark with `flag = False` and note `"moderation_error"`; when
every attempt fails the result is exactly that fallback. -/
theorem claim_C9_output_cardinality (entries : List ModEntry) (tm : ℚ)
    (attempts : Nat → AttemptOutcome ModerationResponse) (m : Nat) :
    (moderate_grades_with_ai entries tm attempts m).result.length = entries.length ∧
    ((moderate_grades_with_ai entries tm attempts m).result =
       moderationFallback entries ∨
     ∃ k resp, attempts k = AttemptOutcome.returns (some resp) ∧
       resp.items.length = entries.length ∧
       (moderate_grades_with_ai entries tm attempts m).result =
         resp.items.map (sanitizeModItem tm)) ∧
    ((∀ i, i < m → modFailsB entries (attempts i) = true) →
      (moderate_grades_with_ai entries tm attempts m).result =
        entries.map fun e => ⟨e.mark, false, "moderation_error"⟩) := by
  refine ⟨moderateAux_length entries tm attempts m 0,
          moderateAux_spec entries tm attempts m 0, ?_⟩
  intro h
  exact moderateAux_exhaust entries tm attempts m 0
    (fun j hj => by simpa using h j hj)

/-- Witness for C9: two entries and an always-raising agent give exactly
the two-item original-marks fallback. -/
theorem claim_C9_witness :
    (moderate_grades_with_ai [⟨3⟩, ⟨5⟩] 5
      (fun _ => AttemptOutcome.raises "err") 3).result.length = 2 ∧
    (moderate_grades_with_ai [⟨3⟩, ⟨5⟩] 5
      (fun _ => AttemptOutcome.raises "err") 3).result =
      [⟨3, false, "moderation_error"⟩, ⟨5, false, "moderation_error"⟩] := by
  have h := claim_C9_output_cardinality [⟨3⟩, ⟨5⟩] 5
    (fun _ => AttemptOutcome.raises "err") 3
  exact ⟨h.1, by rw [h.2.2 (by decide)]; rfl⟩

/-! ## Claim C6 -/

/-- C6.  On the validated-success path, the grading result that is
returned — and the single value written to the cache — has its mark
clamped into `[0, total_marks]` and its similarity score clamped into
`[0, 1]`; the moderation success path likewise clamps every
`moderated_mark` into `[0, total_marks]`. -/
theorem claim_C6_sanitization_clamping :
    (∀ (ans : String) (tm : ℚ) (attempts : Nat → AttemptOutcome GradingResult)
       (m : Nat) (r : GradingResult), 0 ≤ tm →
      (run_agent_with_retry attempts m).result = Except.ok r →
      (grade_answer_with_ai ans tm Option.none attempts m).result =
        sanitizeGrading tm r ∧
      (grade_answer_with_ai ans tm Option.none attempts m).writes =
        [sanitizeGrading tm r] ∧
      0 ≤ (sanitizeGrading tm r).mark ∧ (sanitizeGrading tm r).mark ≤ tm ∧
      0 ≤ (sanitizeGrading tm r).similarity_score ∧
      (sanitizeGrading tm r).similarity_score ≤ 1) ∧
    (∀ (entries : List ModEntry) (tm : ℚ)
       (attempts : Nat → AttemptOutcome ModerationResponse) (m : Nat)
       (resp : ModerationResponse), 0 ≤ tm → 1 ≤ m →
      attempts 0 = AttemptOutcome.returns (some resp) →
      resp.items.length = entries.length →
      (moderate_grades_with_ai entries tm attempts m).result =
        resp.items.map (sanitizeModItem tm) ∧
      ∀ it ∈ (moderate_grades_with_ai entries tm attempts m).result,
        0 ≤ it.moderated_mark ∧ it.moderated_mark ≤ tm) := by
  constructor
  · intro ans tm attempts m r htm hok
    refine ⟨by simp [grade_answer_with_ai, hok],
            by simp [grade_answer_with_ai, hok], ?_, ?_, ?_, ?_⟩
    · exact le_max_left 0 _
    · exact max_le htm (min_le_left _ _)
    · exact le_max_left 0 _
    · exact max_le zero_le_one (min_le_left _ _)
  · intro entries tm attempts m resp htm hm hA hlen
    obtain ⟨r, rfl⟩ : ∃ r, m = r + 1 := ⟨m - 1, by omega⟩
    have hb : (resp.items.length != entries.length) = false := by simp [hlen]
    have hres : (moderate_grades_with_ai entries tm attempts (r + 1)).result =
        resp.items.map (sanitizeModItem tm) := by
      simp [moderate_grades_with_ai, moderateAux, hA, hb]
    refine ⟨hres, ?_⟩
    intro it hit
    rw [hres] at hit
    obtain ⟨x, _, rfl⟩ := List.mem_map.mp hit
    exact ⟨le_max_left 0 _, max_le htm (min_le_left _ _)⟩

/-- Witness for C6: with `total_marks = 5`, a raw mark of `7.5` is
clamped to `5.0` and a raw mark of `-1` is clamped to `0.0`; a raw
similarity score of `2` is clamped to `1`. -/
theorem claim_C6_witness :
    (0 : ℚ) ≤ 5 ∧
    (grade_answer_with_ai "a" 5 Option.none
      (fun _ => AttemptOutcome.returns (some ⟨"t", 2, 15 / 2, "r"⟩)) 3).result.mark = 5 ∧
    (grade_answer_with_ai "a" 5 Option.none
      (fun _ => AttemptOutcome.returns (some ⟨"t", 2, 15 / 2, "r"⟩)) 3).result.similarity_score = 1 ∧
    (grade_answer_with_ai "a" 5 Option.none
      (fun _ => AttemptOutcome.returns (some ⟨"t", 2, -1, "r"⟩)) 3).result.mark = 0 := by
  have h1 := (claim_C6_sanitization_clamping.1 "a" 5
    (fun _ => AttemptOutcome.returns (some ⟨"t", 2, 15 / 2, "r"⟩)) 3
    ⟨"t", 2, 15 / 2, "r"⟩ (by norm_num) rfl).1
  have h2 := (claim_C6_sanitization_clamping.1 "a" 5
    (fun _ => AttemptOutcome.returns (some ⟨"t", 2, -1, "r"⟩)) 3
    ⟨"t", 2, -1, "r"⟩ (by norm_num) rfl).1
  refine ⟨by norm_num, ?_, ?_, ?_⟩
  · rw [h1]; norm_num [sanitizeGrading, max_def, min_def]
  · rw [h1]; norm_num [sanitizeGrading, max_def, min_def]
  · rw [h2]; norm_num [sanitizeGrading, max_def, min_def]

/-! ## Claim C4 -/

/-- C4.  For both artifact-bearing cache lookups (`class_overview_report`
and `question_insights`): when the stored payload carries a non-empty
infographic path that is not an `IMAGE_GENERATION_*` sentinel and the
file no longer exists, the lookup treats the entry as a miss and emits a
diagnostic. -/
theorem claim_C4_artifact_invalidation (fs : String → Bool)
    (report rt p : String)
    (hp : p ≠ "")
    (hsent : strStartsWith p "IMAGE_GENERATION_" = false)
    (hfs : fs p = false) :
    (generateClassOverviewLookup fs (some ⟨report, some p⟩)).1 = Option.none ∧
    (generateClassOverviewLookup fs (some ⟨report, some p⟩)).2 ≠ [] ∧
    (generateQuestionInsightsLookup fs (some ⟨rt, some p⟩)).1 = Option.none ∧
    (generateQuestionInsightsLookup fs (some ⟨rt, some p⟩)).2 ≠ [] := by
  have hb : (p != "") = true := bne_iff_ne.mpr hp
  refine ⟨?_, ?_, ?_, ?_⟩ <;>
    simp [generateClassOverviewLookup, generateQuestionInsightsLookup,
          hb, hsent, hfs]

/-- Witness for C4: a missing `/tmp/infograph.png` invalidates both
kinds of artifact-bearing entries. -/
theorem claim_C4_witness :
    ("/tmp/infograph.png" ≠ "" ∧
     strStartsWith "/tmp/infograph.png" "IMAGE_GENERATION_" = false) ∧
    (generateClassOverviewLookup (fun _ => false)
      (some ⟨"report", some "/tmp/infograph.png"⟩)).1 = Option.none ∧
    (generateQuestionInsightsLookup (fun _ => false)
      (some ⟨"insights", some "/tmp/infograph.png"⟩)).1 = Option.none := by
  have h := claim_C4_artifact_invalidation (fun _ => false)
    "report" "insights" "/tmp/infograph.png" (by decide) (by decide) rfl
  exact ⟨⟨by decide, by decide⟩, h.1, h.2.2.1⟩

/-! ## Digest shape lemmas -/

theorem hexDigit_mem (n : Nat) (h : n < 16) :
    hexDigit n ∈ ("0123456789abcdef" : String).data := by
  interval_cases n <;> decide

theorem hex8_mem (w : Nat) :
    ∀ c ∈ hex8 w, c ∈ ("0123456789abcdef" : String).data := by
  intro c hc
  simp only [hex8, List.mem_cons, List.not_mem_nil, or_false] at hc
  rcases hc with rfl | rfl | rfl | rfl | rfl | rfl | rfl | rfl <;>
    exact hexDigit_mem _ (Nat.mod_lt _ (by norm_num))

theorem sha256hex_length (msg : List Nat) : (sha256hex msg).length = 64 := by
  unfold sha256hex
  cases sha256Final msg
  simp [digestChars, hex8, String.length]

theorem sha256hex_lower (msg : List Nat) :
    ∀ c ∈ (sha256hex msg).data, c ∈ ("0123456789abcdef" : String).data := by
  unfold sha256hex
  cases sha256Final msg
  intro c hc
  simp only [digestChars, List.mem_append] at hc
  rcases hc with ((((((h | h) | h) | h) | h) | h) | h) | h <;>
    exact hex8_mem _ c h

/-! ## Claim C10 -/

/-- C10.  `get_cache_key` is total: whatever the parameters — including
non-serializable values, handled by the `str(params)` fallback branch —
it returns a pair whose first component is the cache type and whose
second is a 64-character, all-lowercase-hex SHA-256 digest. -/
theorem claim_C10_total_key_derivation (ct : String)
    (params : List (String × PyVal)) :
    (get_cache_key ct params).1 = ct ∧
    (get_cache_key ct params).2.length = 64 ∧
    ∀ c ∈ (get_cache_key ct params).2.data,
      c ∈ ("0123456789abcdef" : String).data := by
  cases h : dumps (PyVal.dict (key_data ct params)) with
  | some s =>
    refine ⟨by simp [get_cache_key, h], ?_, ?_⟩ <;>
      simp only [get_cache_key, h]
    · exact sha256hex_length _
    · exact sha256hex_lower _
  | none =>
    refine ⟨by simp [get_cache_key, h], ?_, ?_⟩ <;>
      simp only [get_cache_key, h]
    · exact sha256hex_length _
    · exact sha256hex_lower _

/-- Witness for C10: a concrete serializable and a concrete
non-serializable parameter set both yield 64-character digests under the
same cache type. -/
theorem claim_C10_witness :
    (get_cache_key "grade_answer" [("q", PyVal.str "Q1")]).1 = "grade_answer" ∧
    (get_cache_key "grade_answer" [("q", PyVal.str "Q1")]).2.length = 64 ∧
    (get_cache_key "grade_answer" [("img", PyVal.other "<ndarray>")]).2.length = 64 := by
  exact ⟨(claim_C10_total_key_derivation "grade_answer" [("q", PyVal.str "Q1")]).1,
         (claim_C10_total_key_derivation "grade_answer" [("q", PyVal.str "Q1")]).2.1,
         (claim_C10_total_key_derivation "grade_answer"
           [("img", PyVal.other "<ndarray>")]).2.1⟩

/-! ## Claim C3 -/

/-- C3 (amended).  Key derivation never fails and never signals an
error: on serializable parameters the digest hashes the canonical JSON
of the key data, and on non-serializable parameters `get_cache_key`
catches the `TypeError`, logs a warning, and returns a fallback key
hashing the cache type, an underscore, and the str rendering of the
parameters — so the caller proceeds *with*
caching under the fallback key and the underlying computation is never
aborted. -/
theorem claim_C3_encoding_fallback :
    (∀ (ct : String) (params : List (String × PyVal)) (s : String),
      dumps (PyVal.dict (key_data ct params)) = some s →
      get_cache_key ct params = (ct, sha256hex (utf8Bytes s))) ∧
    (∀ (ct : String) (params : List (String × PyVal)),
      dumps (PyVal.dict (key_data ct params)) = Option.none →
      get_cache_key ct params =
        (ct, sha256hex (utf8Bytes
          (ct ++ "_" ++ pyRepr (PyVal.dict (withVersion params)))))) := by
  constructor
  · intro ct params s h; simp [get_cache_key, h]
  · intro ct params h; simp [get_cache_key, h]

/-- Witness for C3: one serializable and one non-serializable concrete
parameter set, both yielding a digest. -/
theorem claim_C3_witness :
    dumps (PyVal.dict (key_data "grade_answer"
      [("q", PyVal.str "Q1"), ("marks", PyVal.int 5)])) =
      some "\x7b\"marks\": 5, \"q\": \"Q1\", \"type\": \"grade_answer\", \"version\": \"2.0\"\x7d" ∧
    get_cache_key "grade_answer" [("q", PyVal.str "Q1"), ("marks", PyVal.int 5)] =
      ("grade_answer", sha256hex (utf8Bytes
        "\x7b\"marks\": 5, \"q\": \"Q1\", \"type\": \"grade_answer\", \"version\": \"2.0\"\x7d")) ∧
    dumps (PyVal.dict (key_data "t" [("img", PyVal.other "<ndarray>")])) =
      Option.none ∧
    get_cache_key "t" [("img", PyVal.other "<ndarray>")] =
      ("t", sha256hex (utf8Bytes
        ("t" ++ "_" ++ pyRepr (PyVal.dict (withVersion [("img", PyVal.other "<ndarray>")]))))) := by
  refine ⟨by decide, ?_, by decide, ?_⟩
  · exact claim_C3_encoding_fallback.1 "grade_answer"
      [("q", PyVal.str "Q1"), ("marks", PyVal.int 5)] _ (by decide)
  · exact claim_C3_encoding_fallback.2 "t" [("img", PyVal.other "<ndarray>")] (by decide)

/-- Counterexample for C3 as stated: on a non-serializable parameter set
key derivation does not fail — it returns the fallback digest, and the
caller goes on to cache under that key rather than skipping caching. -/
theorem claim_C3_counterexample :
    get_cache_key "grade_answer" [("img", PyVal.other "<ndarray>")] =
      ("grade_answer", sha256hex (utf8Bytes ("grade_answer" ++ "_" ++
        pyRepr (PyVal.dict
          [("img", PyVal.other "<ndarray>"), ("version", PyVal.str "2.0")])))) := rfl

/-! ## Order lemmas for the key comparison used by `sort_keys=True` -/

theorem lexLt_asymm : ∀ s t : List Char, lexLt s t = true → lexLt t s = false := by
  intro s
  induction s with
  | nil =>
    intro t h
    cases t with
    | nil => simp [lexLt] at h
    | cons b bs => simp [lexLt]
  | cons a as ih =>
    intro t h
    cases t with
    | nil => simp [lexLt] at h
    | cons b bs =>
      by_cases h1 : a.toNat < b.toNat
      · have h2 : ¬ b.toNat < a.toNat := by omega
        simp [lexLt, h1, h2]
      · by_cases h2 : b.toNat < a.toNat
        · simp [lexLt, h1, h2] at h
        · simp only [lexLt, h1, h2, if_false] at h ⊢
          exact ih bs h

theorem lexLt_trans : ∀ s t u : List Char,
    lexLt s t = true → lexLt t u = true → lexLt s u = true := by
  intro s
  induction s with
  | nil =>
    intro t u h1 h2
    cases t with
    | nil => simp [lexLt] at h1
    | cons b bs =>
      cases u with
      | nil => simp [lexLt] at h2
      | cons c cs => simp [lexLt]
  | cons a as ih =>
    intro t u h1 h2
    cases t with
    | nil => simp [lexLt] at h1
    | cons b bs =>
      cases u with
      | nil => simp [lexLt] at h2
      | cons c cs =>
        by_cases hab : a.toNat < b.toNat
        · by_cases hbc : b.toNat < c.toNat
          · have hac : a.toNat < c.toNat := by omega
            simp [lexLt, hac]
          · by_cases hcb : c.toNat < b.toNat
            · simp [lexLt, hbc, hcb] at h2
            · have hac : a.toNat < c.toNat := by omega
              simp [lexLt, hac]
        · by_cases hba : b.toNat < a.toNat
          · simp [lexLt, hab, hba] at h1
          · simp only [lexLt, hab, hba, if_false] at h1
            by_cases hbc : b.toNat < c.toNat
            · have hac : a.toNat < c.toNat := by omega
              simp [lexLt, hac]
            · by_cases hcb : c.toNat < b.toNat
              · simp [lexLt, hbc, hcb] at h2
              · simp only [lexLt, hbc, hcb, if_false] at h2
                have hac1 : ¬ a.toNat < c.toNat := by omega
                have hac2 : ¬ c.toNat < a.toNat := by omega
                simp only [lexLt, hac1, hac2, if_false]
                exact ih bs cs h1 h2

theorem lexLt_eq_of_not : ∀ s t : List Char,
    lexLt s t = false → lexLt t s = false → s = t := by
  intro s
  induction s with
  | nil =>
    intro t h1 _
    cases t with
    | nil => rfl
    | cons b bs => simp [lexLt] at h1
  | cons a as ih =>
    intro t h1 h2
    cases t with
    | nil => simp [lexLt] at h2
    | cons b bs =>
      by_cases hab : a.toNat < b.toNat
      · simp [lexLt, hab] at h1
      · by_cases hba : b.toNat < a.toNat
        · simp [lexLt, hba] at h2
        · simp only [lexLt, hab, hba, if_false] at h1 h2
          have hn : a.toNat = b.toNat := by omega
          have hc : a = b := by
            apply Char.ext
            apply UInt32.ext
            exact hn
          rw [hc, ih bs h1 h2]

theorem strLt_asymm (a b : String) (h : strLt a b = true) : strLt b a = false :=
  lexLt_asymm a.data b.data h

theorem strEq_of_not_lt (a b : String) (h1 : strLt a b = false)
    (h2 : strLt b a = false) : a = b := by
  cases a with
  | mk da =>
    cases b with
    | mk db => exact congrArg String.mk (lexLt_eq_of_not da db h1 h2)

theorem strLe_total (a b : String) : strLe a b = true ∨ strLe b a = true := by
  unfold strLe
  cases h : strLt b a with
  | false => left; rfl
  | true => right; rw [strLt_asymm b a h]; rfl

theorem strLe_trans (a b c : String) (h1 : strLe a b = true)
    (h2 : strLe b c = true) : strLe a c = true := by
  unfold strLe at h1 h2 ⊢
  rw [Bool.not_eq_true'] at h1 h2 ⊢
  cases hca : strLt c a with
  | false => rfl
  | true =>
    exfalso
    cases hbc : strLt b c with
    | false =>
      have hb : b = c := strEq_of_not_lt b c hbc h2
      rw [hb] at h1
      rw [h1] at hca
      exact Bool.false_ne_true hca
    | true =>
      have hba := lexLt_trans b.data c.data a.data hbc hca
      have h1' : lexLt b.data a.data = false := h1
      rw [h1'] at hba
      exact Bool.false_ne_true hba

/-! ## Correctness of the pair insertion sort -/

/-- Non-strict key order on (key, serialized value) pairs. -/
def leP (p q : String × String) : Prop := strLe p.1 q.1 = true

/-- Strict key order on (key, serialized value) pairs. -/
def ltP (p q : String × String) : Prop := strLt p.1 q.1 = true

theorem insertPair_perm (p : String × String) :
    ∀ l : List (String × String), List.Perm (insertPair p l) (p :: l) := by
  intro l
  induction l with
  | nil => exact List.Perm.refl _
  | cons q qs ih =>
    simp only [insertPair]
    by_cases h : strLe p.1 q.1 = true
    · rw [if_pos h]
    · rw [if_neg h]
      exact (ih.cons q).trans (List.Perm.swap p q qs)

theorem sortPairs_perm : ∀ l : List (String × String),
    List.Perm (sortPairs l) l := by
  intro l
  induction l with
  | nil => exact List.Perm.refl _
  | cons p ps ih =>
    exact (insertPair_perm p (sortPairs ps)).trans (ih.cons p)

theorem insertPair_sorted (p : String × String) :
    ∀ l : List (String × String), l.Pairwise leP →
    (insertPair p l).Pairwise leP := by
  intro l
  induction l with
  | nil => intro _; simp [insertPair, List.Pairwise]
  | cons q qs ih =>
    intro hs
    rw [List.pairwise_cons] at hs
    simp only [insertPair]
    by_cases h : strLe p.1 q.1 = true
    · rw [if_pos h, List.pairwise_cons]
      refine ⟨?_, List.pairwise_cons.mpr hs⟩
      intro x hx
      rcases List.mem_cons.mp hx with rfl | hx
      · exact h
      · exact strLe_trans p.1 q.1 x.1 h (hs.1 x hx)
    · rw [if_neg h, List.pairwise_cons]
      have hqp : strLe q.1 p.1 = true := (strLe_total p.1 q.1).resolve_left h
      refine ⟨?_, ih hs.2⟩
      intro x hx
      rcases List.mem_cons.mp ((insertPair_perm p qs).mem_iff.mp hx) with rfl | hx
      · exact hqp
      · exact hs.1 x hx

theorem sortPairs_sorted : ∀ l : List (String × String),
    (sortPairs l).Pairwise leP := by
  intro l
  induction l with
  | nil => simp [sortPairs, List.Pairwise]
  | cons p ps ih => exact insertPair_sorted p (sortPairs ps) ih

theorem pairwise_ltP_of_nodup (l : List (String × String))
    (hs : l.Pairwise leP) (hnd : (l.map Prod.fst).Nodup) :
    l.Pairwise ltP := by
  have hne : l.Pairwise (fun p q => p.1 ≠ q.1) := List.pairwise_map.mp hnd
  refine (hs.and hne).imp ?_
  intro p q hpq
  unfold ltP
  unfold leP at hpq
  rw [strLe, Bool.not_eq_true'] at hpq
  cases hlt : strLt p.1 q.1 with
  | true => rfl
  | false => exact absurd (strEq_of_not_lt p.1 q.1 hlt hpq.1) hpq.2

/-- Two permuted pair lists with duplicate-free keys have the same
insertion sort: the sorted key order is canonical. -/
theorem sortPairs_canon (l1 l2 : List (String × String))
    (h : List.Perm l1 l2) (hnd : (l1.map Prod.fst).Nodup) :
    sortPairs l1 = sortPairs l2 := by
  haveI : IsAntisymm (String × String) ltP :=
    ⟨fun a b h1 h2 => by
      have h3 := strLt_asymm a.1 b.1 h1
      rw [ltP, h3] at h2
      exact (Bool.false_ne_true h2).elim⟩
  have hp : List.Perm (sortPairs l1) (sortPairs l2) :=
    (sortPairs_perm l1).trans (h.trans (sortPairs_perm l2).symm)
  have hnd1 : ((sortPairs l1).map Prod.fst).Nodup :=
    (((sortPairs_perm l1).map Prod.fst).nodup_iff).mpr hnd
  have hnd2 : ((sortPairs l2).map Prod.fst).Nodup :=
    (((sortPairs_perm l2).map Prod.fst).nodup_iff).mpr
      (((h.map Prod.fst).nodup_iff).mp hnd)
  exact List.eq_of_perm_of_sorted hp
    (pairwise_ltP_of_nodup _ (sortPairs_sorted l1) hnd1)
    (pairwise_ltP_of_nodup _ (sortPairs_sorted l2) hnd2)

/-! ## Permutation invariance of the serialization -/

/-- Relates the outcomes of serializing two permuted pair lists: both
fail, or both succeed with permuted results. -/
def optPermPS : Option (List (String × String)) → Option (List (String × String)) → Prop
  | some a, some b => List.Perm a b
  | Option.none, Option.none => True
  | _, _ => False

theorem optPermPS_trans {a b c : Option (List (String × String))}
    (h1 : optPermPS a b) (h2 : optPermPS b c) : optPermPS a c := by
  cases a <;> cases b <;> cases c <;> simp [optPermPS] at *
  exact h1.trans h2

theorem dumpsPairs_perm (l1 l2 : List (String × PyVal))
    (h : List.Perm l1 l2) : optPermPS (dumpsPairs l1) (dumpsPairs l2) := by
  induction h with
  | nil => exact List.Perm.refl []
  | cons x h ih =>
    rename_i t1 t2
    obtain ⟨k, v⟩ := x
    cases hv : dumps v with
    | none => simp [dumpsPairs, hv, optPermPS]
    | some s =>
      cases h1 : dumpsPairs t1 with
      | none =>
        rw [h1] at ih
        cases h2 : dumpsPairs t2 with
        | none => simp [dumpsPairs, hv, h1, h2, optPermPS]
        | some b => rw [h2] at ih; simp [optPermPS] at ih
      | some a =>
        rw [h1] at ih
        cases h2 : dumpsPairs t2 with
        | none => rw [h2] at ih; simp [optPermPS] at ih
        | some b =>
          rw [h2] at ih
          have hab : List.Perm a b := ih
          simp only [dumpsPairs, hv, h1, h2]
          exact hab.cons (k, s)
  | swap x y l =>
    obtain ⟨kx, vx⟩ := x
    obtain ⟨ky, vy⟩ := y
    cases hvx : dumps vx <;> cases hvy : dumps vy <;> cases hl : dumpsPairs l <;>
      simp [dumpsPairs, hvx, hvy, hl, optPermPS]
    exact List.Perm.swap _ _ _
  | trans h1 h2 ih1 ih2 => exact optPermPS_trans ih1 ih2

theorem dumpsPairs_keys (l : List (String × PyVal)) :
    ∀ ps, dumpsPairs l = some ps → ps.map Prod.fst = l.map Prod.fst := by
  induction l with
  | nil =>
    intro ps h
    simp only [dumpsPairs, Option.some_inj] at h
    rw [← h]
    rfl
  | cons x xs ih =>
    obtain ⟨k, v⟩ := x
    intro ps h
    simp only [dumpsPairs] at h
    cases hv : dumps v with
    | none => rw [hv] at h; cases h
    | some s =>
      rw [hv] at h
      cases hxs : dumpsPairs xs with
      | none => rw [hxs] at h; cases h
      | some ss =>
        rw [hxs, Option.some_inj] at h
        rw [← h]
        simp [ih ss hxs]

/-! ## Permutation invariance of the key-data construction -/

theorem containsKey_perm (k : String) (l1 l2 : List (String × PyVal))
    (h : List.Perm l1 l2) : containsKey k l1 = containsKey k l2 := by
  induction h with
  | nil => rfl
  | cons x h ih =>
    obtain ⟨a, v⟩ := x
    simp only [containsKey]
    by_cases ha : a = k
    · rw [if_pos ha, if_pos ha]
    · rw [if_neg ha, if_neg ha, ih]
  | swap x y l =>
    obtain ⟨a, va⟩ := x
    obtain ⟨b, vb⟩ := y
    simp only [containsKey]
    by_cases hb : b = k <;> by_cases ha : a = k <;>
      simp [ha, hb]
  | trans h1 h2 ih1 ih2 => exact ih1.trans ih2

theorem containsKey_iff (k : String) :
    ∀ l : List (String × PyVal), containsKey k l = true ↔ k ∈ l.map Prod.fst := by
  intro l
  induction l with
  | nil => simp [containsKey]
  | cons x xs ih =>
    obtain ⟨a, v⟩ := x
    simp only [containsKey, List.map_cons, List.mem_cons]
    by_cases ha : a = k
    · rw [if_pos ha]
      simp [ha]
    · rw [if_neg ha]
      rw [ih]
      constructor
      · exact Or.inr
      · rintro (h | h)
        · exact absurd h.symm ha
        · exact h

theorem lookupV_perm (k : String) :
    ∀ l1 l2 : List (String × PyVal), List.Perm l1 l2 →
    (l1.map Prod.fst).Nodup → lookupV k l1 = lookupV k l2 := by
  intro l1 l2 h
  induction h with
  | nil => intro _; rfl
  | cons x h ih =>
    intro hnd
    obtain ⟨a, v⟩ := x
    simp only [lookupV]
    by_cases ha : a = k
    · rw [if_pos ha, if_pos ha]
    · rw [if_neg ha, if_neg ha]
      apply ih
      simp only [List.map_cons, List.nodup_cons] at hnd
      exact hnd.2
  | swap x y l =>
    intro hnd
    obtain ⟨a, va⟩ := x
    obtain ⟨b, vb⟩ := y
    simp only [List.map_cons, List.nodup_cons, List.mem_cons] at hnd
    simp only [lookupV]
    by_cases hb : b = k <;> by_cases ha : a = k
    · exact absurd (Or.inl (hb.trans ha.symm)) hnd.1
    · rw [if_pos hb, if_neg ha, if_pos hb]
    · rw [if_neg hb, if_pos ha, if_pos ha]
    · rw [if_neg hb, if_neg ha, if_neg ha, if_neg hb]
  | trans h1 h2 ih1 ih2 =>
    intro hnd
    exact (ih1 hnd).trans (ih2 (((h1.map Prod.fst).nodup_iff).mp hnd))

theorem withVersion_perm (p1 p2 : List (String × PyVal))
    (h : List.Perm p1 p2) : List.Perm (withVersion p1) (withVersion p2) := by
  unfold withVersion
  have hc := containsKey_perm "version" p1 p2 h
  by_cases h1 : containsKey "version" p1 = true
  · rw [if_pos h1, if_pos (hc ▸ h1)]
    exact h
  · rw [if_neg h1, if_neg (fun hx => h1 (hc ▸ hx))]
    exact h.append_right [("version", PyVal.str "2.0")]

theorem withVersion_nodup (p : List (String × PyVal))
    (hnd : (p.map Prod.fst).Nodup) :
    ((withVersion p).map Prod.fst).Nodup := by
  unfold withVersion
  by_cases h1 : containsKey "version" p = true
  · rw [if_pos h1]; exact hnd
  · rw [if_neg h1]
    have hmem : "version" ∉ p.map Prod.fst := fun hx =>
      h1 ((containsKey_iff "version" p).mpr hx)
    simp only [List.map_append, List.map_cons, List.map_nil]
    rw [List.nodup_append]
    refine ⟨hnd, List.nodup_singleton _, ?_⟩
    intro a ha hb
    simp only [List.mem_singleton] at hb
    subst hb
    exact hmem ha

theorem key_data_perm (ct : String) (p1 p2 : List (String × PyVal))
    (h : List.Perm p1 p2) (hnd : (p1.map Prod.fst).Nodup) :
    List.Perm (key_data ct p1) (key_data ct p2) := by
  simp only [key_data]
  have hq := withVersion_perm p1 p2 h
  have hqnd := withVersion_nodup p1 hnd
  rw [lookupV_perm "type" (withVersion p1) (withVersion p2) hq hqnd]
  exact (hq.filter (fun kv => kv.1 != "type")).cons _

theorem key_data_nodup (ct : String) (p : List (String × PyVal))
    (hnd : (p.map Prod.fst).Nodup) :
    ((key_data ct p).map Prod.fst).Nodup := by
  simp only [key_data]
  simp only [List.map_cons, List.nodup_cons]
  constructor
  · intro hmem
    obtain ⟨kv, hkv, hfst⟩ := List.mem_map.mp hmem
    have := (List.mem_filter.mp hkv).2
    rw [hfst] at this
    simp at this
  · have hsub : ((withVersion p).filter (fun kv => kv.1 != "type")).Sublist
        (withVersion p) := List.filter_sublist _
    exact (hsub.map Prod.fst).nodup (withVersion_nodup p hnd)

/-- Serializing two permuted dictionaries with duplicate-free keys gives
identical canonical JSON (or fails on both). -/
theorem dumps_dict_congr (kd1 kd2 : List (String × PyVal))
    (h : List.Perm kd1 kd2) (hnd : (kd1.map Prod.fst).Nodup) :
    dumps (PyVal.dict kd1) = dumps (PyVal.dict kd2) := by
  have hrel := dumpsPairs_perm kd1 kd2 h
  cases h1 : dumpsPairs kd1 with
  | none =>
    cases h2 : dumpsPairs kd2 with
    | none => simp [dumps, h1, h2]
    | some b => rw [h1, h2] at hrel; simp [optPermPS] at hrel
  | some a =>
    cases h2 : dumpsPairs kd2 with
    | none => rw [h1, h2] at hrel; simp [optPermPS] at hrel
    | some b =>
      rw [h1, h2] at hrel
      have hp : List.Perm a b := hrel
      have hka := dumpsPairs_keys kd1 a h1
      have hnda : (a.map Prod.fst).Nodup := by rw [hka]; exact hnd
      have hsort := sortPairs_canon a b hp hnda
      simp [dumps, h1, h2, hsort]

/-! ## Claim C5 -/

/-- C5.  For any two requests with the same cache type and parameter
mappings equal as mappings — permutations of each other with
duplicate-free keys, serializable as the data model requires —
`get_cache_key` returns byte-identical digests, and the digest is the
lowercase-hex SHA-256 of the canonical JSON serialization (keys sorted
lexicographically, non-ASCII unescaped) of the key data. -/
theorem claim_C5_key_derivation_determinism (ct : String)
    (p1 p2 : List (String × PyVal))
    (hperm : List.Perm p1 p2) (hnd : (p1.map Prod.fst).Nodup)
    (hser : (dumps (PyVal.dict (key_data ct p1))).isSome = true) :
    get_cache_key ct p1 = get_cache_key ct p2 ∧
    ∃ s, dumps (PyVal.dict (key_data ct p1)) = some s ∧
      get_cache_key ct p1 = (ct, sha256hex (utf8Bytes s)) ∧
      get_cache_key ct p2 = (ct, sha256hex (utf8Bytes s)) := by
  have hcong := dumps_dict_congr (key_data ct p1) (key_data ct p2)
    (key_data_perm ct p1 p2 hperm hnd) (key_data_nodup ct p1 hnd)
  obtain ⟨s, hs⟩ := Option.isSome_iff_exists.mp hser
  have hs2 : dumps (PyVal.dict (key_data ct p2)) = some s := by
    rw [← hcong]; exact hs
  refine ⟨?_, s, hs, ?_, ?_⟩ <;> simp [get_cache_key, hs, hs2]

/-- Witness for C5: the two insertion orders of
the mapping sending "q" to "Q1" and "marks" to 5 derive byte-identical
digests. -/
theorem claim_C5_witness :
    List.Perm [("q", PyVal.str "Q1"), ("marks", PyVal.int 5)]
      [("marks", PyVal.int 5), ("q", PyVal.str "Q1")] ∧
    (([("q", PyVal.str "Q1"), ("marks", PyVal.int 5)] :
        List (String × PyVal)).map Prod.fst).Nodup ∧
    get_cache_key "grade_answer" [("q", PyVal.str "Q1"), ("marks", PyVal.int 5)] =
      get_cache_key "grade_answer" [("marks", PyVal.int 5), ("q", PyVal.str "Q1")] := by
  have hperm : List.Perm [("q", PyVal.str "Q1"), ("marks", PyVal.int 5)]
      [("marks", PyVal.int 5), ("q", PyVal.str "Q1")] :=
    List.Perm.swap ("marks", PyVal.int 5) ("q", PyVal.str "Q1") []
  refine ⟨hperm, by decide, ?_⟩
  exact (claim_C5_key_derivation_determinism "grade_answer" _ _ hperm
    (by decide) (by decide)).1

end Grader
